import Mathlib

/-!
Shallow embedding of the `cctimesheet` repository (files
`generate_timesheet.py`, `parse_claude_messages.py`, and the library
variant `src/cctimesheet/generator.py`, whose aggregation functions are
textually identical to the script's).

Python `datetime` values are modelled as a record of `Nat` fields,
Python sets as `Finset`, Python dicts (`defaultdict`) as
insertion-ordered association lists, Python floats (only ever produced
by `len(...) * 0.25`) as `ℚ`, and fallible parsing as `Option`.
Standard-library calls (`datetime.fromisoformat`, `datetime.strptime`,
`fnmatch.fnmatch`, `int(...)`, `str.replace`, `str.lower`, `sorted`)
are modelled by executable Lean functions whose semantics were checked
against CPython behaviour; each carries a comment naming the library
call it embeds.
-/

/-- Model of a Python naive `datetime.datetime` value: the seven
wall-clock components.  (Python bounds its fields; the bounds are not
needed structurally and validation is performed by the parsers that
construct these values, exactly as the constructors do in Python.) -/
structure DateTime where
  year : Nat
  month : Nat
  day : Nat
  hour : Nat
  minute : Nat
  second : Nat
  microsecond : Nat
  deriving DecidableEq

/-- Gregorian leap-year test (as in Python's `calendar.isleap` /
`datetime`'s internal validation). -/
def isLeapYear (y : Nat) : Bool :=
  (y % 4 = 0 && y % 100 ≠ 0) || (y % 400 = 0)

/-- Number of days in a month, used by `datetime`'s constructor
validation. -/
def daysInMonth (y m : Nat) : Nat :=
  if m = 2 then (if isLeapYear y then 29 else 28)
  else if m = 4 ∨ m = 6 ∨ m = 9 ∨ m = 11 then 30
  else 31

/-- Numeric value of a decimal digit character. -/
def digitVal (c : Char) : Nat := c.toNat - 48

/-- Zero-pad the decimal representation of `n` to width `w` (as `%02d`
style formatting inside `strftime`). -/
def padNum (w n : Nat) : String :=
  let s := toString n
  String.mk (List.replicate (w - s.length) '0') ++ s

/-- Embedding of `dt.strftime('%Y-%m-%d')` from
`group_by_15min_chunks`: the calendar-day key of a datetime. -/
def dayKey (dt : DateTime) : String :=
  padNum 4 dt.year ++ "-" ++ padNum 2 dt.month ++ "-" ++ padNum 2 dt.day

/-- Embedding of `round_to_15min` (generate_timesheet.py lines 45-48):
`minutes = (dt.minute // 15) * 15; return dt.replace(minute=minutes,
second=0, microsecond=0)`. -/
def round_to_15min (dt : DateTime) : DateTime :=
  { dt with minute := dt.minute / 15 * 15, second := 0, microsecond := 0 }

/-- Model of Python `str.replace(pat, repl)` on character lists:
replace every non-overlapping occurrence, scanning left to right.
`fuel` bounds the recursion; callers pass the length of the string,
which always suffices because every step consumes at least one
character (all call sites in this file use non-empty patterns). -/
def replaceAllAux (pat repl : List Char) : Nat → List Char → List Char
  | 0, s => s
  | _ + 1, [] => []
  | fuel + 1, c :: rest =>
    if pat ≠ [] ∧ pat.isPrefixOf (c :: rest) then
      repl ++ replaceAllAux pat repl fuel ((c :: rest).drop pat.length)
    else
      c :: replaceAllAux pat repl fuel rest

/-- Model of Python `str.replace` on strings. -/
def pyReplace (s pat repl : String) : String :=
  String.mk (replaceAllAux pat.data repl.data s.data.length s.data)

/-- Embedding of `clean_project_name` (generate_timesheet.py lines
31-42): strip one leading `'-'`, then
`.replace('-Users-pdenya-Code-', '')`, then
`.replace('-Users-pdenya-', '~/')`, then `.replace('-', '/')`. -/
def clean_project_name (project_name : String) : String :=
  let p := match project_name.data with
    | '-' :: rest => String.mk rest
    | _ => project_name
  let p := pyReplace p "-Users-pdenya-Code-" ""
  let p := pyReplace p "-Users-pdenya-" "~/"
  let p := pyReplace p "-" "/"
  p

/-- Model of Python `str.lower()` (ASCII range; the repository's
project names and filter patterns are ASCII). -/
def pyLower (s : String) : String := String.mk (s.data.map Char.toLower)

/-- Embedding of `calculate_hours` (generate_timesheet.py lines
124-126): `len(time_blocks) * 0.25`.  The float arithmetic is modelled
in `ℚ`; `0.25` is a power of two, so the Python multiplication is
exact for every set size that fits a float's mantissa. -/
def calculate_hours (time_blocks : Finset DateTime) : ℚ :=
  (time_blocks.card : ℚ) * 0.25

/-- Helper for the `fnmatch` model: parse a `[...]` character class.
Input is the pattern remainder just after `'['`; the result is the
negation flag, the class ranges (a single character `c` is the range
`(c, c)`), and the pattern remainder after the closing `']'`.
`none` means no closing `']'` exists, in which case Python treats the
`'['` as a literal character.  Mirrors `fnmatch.translate`: a leading
`'!'` negates, a `']'` directly after `'['` (or `'[!'`) is literal
class content, `a-b` is a range, a trailing `'-'` is literal. -/
def parseClassAux : List Char → List Char → Option (List Char × List Char)
  | _, [] => none
  | acc, ']' :: rest => some (acc.reverse, rest)
  | acc, c :: rest => parseClassAux (c :: acc) rest

/-- Turn raw class content into ranges, following
`fnmatch.translate`'s treatment of `'-'`. -/
def classItems : List Char → List (Char × Char)
  | [] => []
  | a :: '-' :: [] => [(a, a), ('-', '-')]
  | a :: '-' :: b :: rest => (a, b) :: classItems rest
  | a :: rest => (a, a) :: classItems rest

/-- Parse a full character class (see `parseClassAux`). -/
def parseClass (cs : List Char) : Option (Bool × List (Char × Char) × List Char) :=
  let (neg, cs1) := match cs with
    | '!' :: r => (true, r)
    | _ => (false, cs)
  match cs1 with
  | ']' :: r =>
    (parseClassAux [']'] r).map (fun (content, rest) => (neg, classItems content, rest))
  | _ =>
    (parseClassAux [] cs1).map (fun (content, rest) => (neg, classItems content, rest))

/-- Does character `c` hit the class? -/
def classHit (items : List (Char × Char)) (c : Char) : Bool :=
  items.any (fun ab => ab.1 ≤ c ∧ c ≤ ab.2)

/-- Model of the matching semantics of `fnmatch.fnmatch(name, pat)` on
POSIX (where `os.path.normcase` is the identity; the case folding in
the source is explicit via `.lower()`): shell-style globbing of the
FULL name with `*` (any run), `?` (one character), and `[...]`
classes.  `fuel` bounds the recursion; every step shortens
`pattern.length + name.length`, so the fuel passed by `fnmatch`
suffices. -/
def globMatch : Nat → List Char → List Char → Bool
  | 0, _, _ => false
  | _ + 1, [], s => s.isEmpty
  | fuel + 1, '*' :: pr, s =>
    globMatch fuel pr s ||
      (match s with
       | [] => false
       | _ :: sr => globMatch fuel ('*' :: pr) sr)
  | fuel + 1, '?' :: pr, s =>
    (match s with
     | [] => false
     | _ :: sr => globMatch fuel pr sr)
  | fuel + 1, '[' :: pr, s =>
    (match parseClass pr with
     | some (neg, items, prest) =>
       (match s with
        | [] => false
        | c :: sr => (neg != classHit items c) && globMatch fuel prest sr)
     | none =>
       (match s with
        | [] => false
        | c :: sr => (c = '[') && globMatch fuel pr sr))
  | fuel + 1, c :: pr, s =>
    (match s with
     | [] => false
     | c' :: sr => (c = c') && globMatch fuel pr sr)

/-- Model of `fnmatch.fnmatch(name, pat)` (with identity `normcase`). -/
def fnmatch (name pat : String) : Bool :=
  globMatch (pat.length + name.length + 1) pat.data name.data

/-- Parse exactly two decimal digit characters. -/
def twoDigits (a b : Char) : Option Nat :=
  if a.isDigit ∧ b.isDigit then some (10 * digitVal a + digitVal b) else none

/-- Helper for `parse_iso`: parse the fractional-seconds digits (the
pre-3.11 `fromisoformat` grammar takes exactly 3 or 6 digits) into a
microsecond count, returning the remainder. -/
def parseFraction : List Char → Option (Nat × List Char)
  | a :: b :: c :: d :: e :: f :: rest =>
    if a.isDigit ∧ b.isDigit ∧ c.isDigit ∧ d.isDigit ∧ e.isDigit ∧ f.isDigit then
      some (100000 * digitVal a + 10000 * digitVal b + 1000 * digitVal c +
              100 * digitVal d + 10 * digitVal e + digitVal f, rest)
    else if a.isDigit ∧ b.isDigit ∧ c.isDigit then
      some ((100 * digitVal a + 10 * digitVal b + digitVal c) * 1000, d :: e :: f :: rest)
    else none
  | a :: b :: c :: rest =>
    if a.isDigit ∧ b.isDigit ∧ c.isDigit then
      some ((100 * digitVal a + 10 * digitVal b + digitVal c) * 1000, rest)
    else none
  | _ => none

/-- Helper for `parse_iso`: a UTC-offset suffix `±HH:MM` (validated
like `timezone`'s constructor), or nothing.  The offset's value is
irrelevant to the program — `group_by_15min_chunks` immediately drops
it with `dt.replace(tzinfo=None)` — so only well-formedness is
checked. -/
def parseOffset : List Char → Bool
  | [] => true
  | sgn :: h1 :: h2 :: ':' :: m1 :: m2 :: [] =>
    (sgn == '+' || sgn == '-') &&
      (match twoDigits h1 h2, twoDigits m1 m2 with
       | some oh, some om => decide (oh < 24) && decide (om < 60)
       | _, _ => false)
  | _ => false

/-- Helper for `parse_iso`: the time-of-day part
`HH[:MM[:SS[.fff[fff]]]]` followed by an optional offset. -/
def parseTimePart (cs : List Char) : Option (Nat × Nat × Nat × Nat) :=
  match cs with
  | h1 :: h2 :: rest =>
    (twoDigits h1 h2).bind (fun h =>
      if h ≥ 24 then none else
      match rest with
      | [] => some (h, 0, 0, 0)
      | ':' :: m1 :: m2 :: rest2 =>
        (twoDigits m1 m2).bind (fun mi =>
          if mi ≥ 60 then none else
          match rest2 with
          | [] => some (h, mi, 0, 0)
          | ':' :: s1 :: s2 :: rest3 =>
            (twoDigits s1 s2).bind (fun se =>
              if se ≥ 60 then none else
              match rest3 with
              | '.' :: frac =>
                (parseFraction frac).bind (fun (us, rest4) =>
                  if parseOffset rest4 then some (h, mi, se, us) else none)
              | _ => if parseOffset rest3 then some (h, mi, se, 0) else none)
          | _ => if parseOffset rest2 then some (h, mi, 0, 0) else none)
      | _ => if parseOffset rest then some (h, 0, 0, 0) else none)
  | _ => none

/-- Model of `datetime.fromisoformat` (the grammar documented for
Python ≤ 3.10: `YYYY-MM-DD[*HH[:MM[:SS[.fff[fff]]]][±HH:MM]]`, any
single character as date/time separator) composed with
`.replace(tzinfo=None)`: the wall-clock fields are kept and any
parsed offset is discarded without conversion, exactly as the source
does.  Field validation mirrors the `datetime` constructor. -/
def parse_iso (s : String) : Option DateTime :=
  match s.data with
  | y1 :: y2 :: y3 :: y4 :: '-' :: m1 :: m2 :: '-' :: d1 :: d2 :: rest =>
    if y1.isDigit ∧ y2.isDigit ∧ y3.isDigit ∧ y4.isDigit then
      let y := 1000 * digitVal y1 + 100 * digitVal y2 + 10 * digitVal y3 + digitVal y4
      match twoDigits m1 m2, twoDigits d1 d2 with
      | some mo, some da =>
        if 1 ≤ y ∧ 1 ≤ mo ∧ mo ≤ 12 ∧ 1 ≤ da ∧ da ≤ daysInMonth y mo then
          match rest with
          | [] => some ⟨y, mo, da, 0, 0, 0, 0⟩
          | _sep :: timeChars =>
            (parseTimePart timeChars).map (fun (h, mi, se, us) => ⟨y, mo, da, h, mi, se, us⟩)
        else none
      | _, _ => none
    else none
  | _ => none

/-- Lookup in an insertion-ordered association list (the model of a
Python dict; Python dicts preserve insertion order and have unique
keys). -/
def alookup {α : Type} : List (String × α) → String → Option α
  | [], _ => none
  | (k', v) :: rest, k => if k = k' then some v else alookup rest k

/-- Update-or-append on an association list, modelling
`d[k] = f(d.get(k))` on a `defaultdict`: an existing key keeps its
position and gets the updated value; a fresh key is appended at the
end, exactly as CPython dicts behave. -/
def upsert {α : Type} : List (String × α) → String → (Option α → α) → List (String × α)
  | [], k, f => [(k, f none)]
  | (k', v) :: rest, k, f =>
    if k = k' then (k', f (some v)) :: rest else (k', v) :: upsert rest k f

/-- The keys of an association list. -/
def akeys {α : Type} (l : List (String × α)) : List String := l.map Prod.fst

/-- A message row as returned by the `messages` table query:
`(timestamp, session_id, project_name)`. -/
structure Msg where
  timestamp : String
  session_id : String
  project_name : String
  deriving DecidableEq

/-- The nested activity map `{date: {project: set of 15-min blocks}}`. -/
abbrev Activity := List (String × List (String × Finset DateTime))

/-- Embedding of the timestamp handling at the top of
`group_by_15min_chunks`'s loop body:
`datetime.fromisoformat(timestamp_str.replace('Z', '+00:00'))`
followed by `.replace(tzinfo=None)` (the latter is part of
`parse_iso`, which never performs a timezone conversion).  The whole
loop body is wrapped in `except Exception`, so `none` means the row is
skipped (after a warning on stderr, which has no semantic content). -/
def parseMsgTime (m : Msg) : Option DateTime :=
  parse_iso (pyReplace m.timestamp "Z" "+00:00")

/-- One iteration of the first (bucketing) pass of
`group_by_15min_chunks` (generate_timesheet.py lines 66-88): parse the
timestamp, round to the 15-minute block, compute the `%Y-%m-%d` day
key, clean the project name, and
`all_activity[date_str][project].add(block)`; a row whose timestamp
fails to parse is skipped. -/
def bucketStep (acc : Activity) (m : Msg) : Activity :=
  match parseMsgTime m with
  | none => acc
  | some dt =>
    let block := round_to_15min dt
    let date_str := dayKey dt
    let project := clean_project_name m.project_name
    upsert acc date_str (fun inner =>
      upsert (inner.getD []) project (fun blocks => insert block (blocks.getD ∅)))

/-- The first (bucketing) pass of `group_by_15min_chunks`: fold the
loop body over the message list, starting from the empty
`defaultdict`. -/
def bucketPass (messages : List Msg) : Activity :=
  messages.foldl bucketStep []

/-- Embedding of the per-project filter conditions of the second pass
(generate_timesheet.py lines 97-101).  Python's truthiness test
`if project_filter` / `if exclude_filter` treats both `None` and the
empty string as "no filter".  A retained project must match the
include pattern (if one is given) and must not match the exclude
pattern (if one is given); matching is case-insensitive via explicit
`.lower()` on both sides. -/
def keepProject (project_filter exclude_filter : Option String) (project : String) : Bool :=
  (match project_filter with
   | none => true
   | some pat => if pat = "" then true else fnmatch (pyLower project) (pyLower pat)) &&
  (match exclude_filter with
   | none => true
   | some pat => if pat = "" then true else !fnmatch (pyLower project) (pyLower pat))

/-- The second (filter) pass of `group_by_15min_chunks`
(generate_timesheet.py lines 90-104): iterate the first pass's map in
order and copy every project that passes both filters into a fresh
map.  Because the iterated map has unique date keys (and unique
project keys per date) and keys are copied in iteration order, the
loop of assignments `activity[date_str][project] = blocks` builds
exactly the order-preserving per-date filtering below; a date none of
whose projects survives is never created in the fresh map. -/
def filterPass (act : Activity) (project_filter exclude_filter : Option String) : Activity :=
  act.filterMap (fun entry =>
    if entry.2.filter (fun pb => keepProject project_filter exclude_filter pb.1) = [] then none
    else some (entry.1, entry.2.filter (fun pb => keepProject project_filter exclude_filter pb.1)))

/-- Union of all projects' bucket sets for one day, modelling the
`all_blocks.update(blocks)` loop of the third pass. -/
def unionBlocks (projects : List (String × Finset DateTime)) : Finset DateTime :=
  projects.foldl (fun acc pb => acc ∪ pb.2) ∅

/-- Lexicographic (code-point) comparison of character lists: the
order Python's `<` / `sorted` uses on strings. -/
def charListLe : List Char → List Char → Bool
  | [], _ => true
  | _ :: _, [] => false
  | a :: as, b :: bs => if a < b then true else if b < a then false else charListLe as bs

/-- Python's string order (`s1 <= s2`): lexicographic by code point. -/
def strLe (a b : String) : Bool := charListLe a.data b.data

/-- The relation `sorted` sorts by, as a proposition. -/
def strLeProp (a b : String) : Prop := strLe a b = true

instance : DecidableRel strLeProp := fun a b => instDecidableEqBool (strLe a b) true

instance : IsTotal String strLeProp where
  total a b := by
    unfold strLeProp strLe
    generalize a.data = as
    generalize b.data = bs
    induction as generalizing bs with
    | nil => exact Or.inl rfl
    | cons x xs ih =>
      cases bs with
      | nil => exact Or.inr rfl
      | cons y ys =>
        rcases lt_trichotomy x y with h | h | h
        · exact Or.inl (by simp [charListLe, h])
        · subst h
          rcases ih ys with h | h
          · exact Or.inl (by simp [charListLe, lt_irrefl, h])
          · exact Or.inr (by simp [charListLe, lt_irrefl, h])
        · exact Or.inr (by simp [charListLe, h])

instance : IsTrans String strLeProp where
  trans a b c := by
    unfold strLeProp strLe
    generalize a.data = as
    generalize b.data = bs
    generalize c.data = cs
    induction as generalizing bs cs with
    | nil => intro _ _; rfl
    | cons x xs ih =>
      cases bs with
      | nil => intro h; simp [charListLe] at h
      | cons y ys =>
        cases cs with
        | nil => intro _ h; simp [charListLe] at h
        | cons z zs =>
          intro h1 h2
          by_cases hxy : x < y
          · by_cases hyz : y < z
            · simp [charListLe, lt_trans hxy hyz]
            · by_cases hzy : z < y
              · simp [charListLe, hyz, hzy] at h2
              · have : y = z := le_antisymm (not_lt.1 hzy) (not_lt.1 hyz)
                subst this
                simp [charListLe, hxy]
          · by_cases hyx : y < x
            · simp [charListLe, hxy, hyx] at h1
            · have : x = y := le_antisymm (not_lt.1 hyx) (not_lt.1 hxy)
              subst this
              simp only [charListLe, lt_irrefl, if_false] at h1
              by_cases hxz : x < z
              · simp [charListLe, hxz]
              · by_cases hzx : z < x
                · simp [charListLe, hxz, hzx] at h2
                · have : x = z := le_antisymm (not_lt.1 hzx) (not_lt.1 hxz)
                  subst this
                  simp only [charListLe, lt_irrefl, if_false] at h2 ⊢
                  exact ih ys zs h1 h2

/-- The synthetic project name of the third pass:
`"Combined: " + ", ".join(sorted(project_names))` where
`project_names` collects the day's surviving project names in
iteration order and `sorted` is Python's stable code-point sort (the
names are distinct dict keys, so any stable sort agrees with it). -/
def combinedName (projects : List (String × Finset DateTime)) : String :=
  "Combined: " ++ String.intercalate ", " (List.insertionSort strLeProp (akeys projects))

/-- One day's entry after the third (merge) pass
(generate_timesheet.py lines 106-121): a single synthetic project
holding the union of the day's surviving bucket sets. -/
def mergeDay (entry : String × List (String × Finset DateTime)) :
    String × List (String × Finset DateTime) :=
  (entry.1, [(combinedName entry.2, unionBlocks entry.2)])

/-- Embedding of `group_by_15min_chunks` (generate_timesheet.py lines
50-121): bucketing pass, then filter pass, then — when `group_time`
is set — the merge pass.  (The source guards the merge pass with
`if group_time and activity:`; on an empty map the guard returns the
empty map unchanged, which coincides with mapping `mergeDay` over the
empty list, so the truthiness test needs no separate branch.) -/
def group_by_15min_chunks (messages : List Msg)
    (project_filter exclude_filter : Option String) (group_time : Bool) : Activity :=
  let activity := filterPass (bucketPass messages) project_filter exclude_filter
  if group_time then activity.map mergeDay else activity

/-- Month alternatives of CPython's `_strptime` regex for `%m`
(`1[0-2]|0[1-9]|[1-9]`), in the regex engine's preference order: each
candidate is the month value and the unconsumed remainder. -/
def monthCandidates : List Char → List (Nat × List Char)
  | '1' :: x :: r =>
    (if '0' ≤ x ∧ x ≤ '2' then [(10 + digitVal x, r)] else []) ++
      [(1, x :: r)]
  | '0' :: x :: r => if '1' ≤ x ∧ x ≤ '9' then [(digitVal x, r)] else []
  | x :: r => if '1' ≤ x ∧ x ≤ '9' then [(digitVal x, r)] else []
  | [] => []

/-- Day alternatives of CPython's `_strptime` regex for `%d`
(`3[01]|[12]\d|0[1-9]|[1-9]`), in preference order. -/
def dayCandidates : List Char → List (Nat × List Char)
  | '3' :: x :: r =>
    (if x = '0' ∨ x = '1' then [(30 + digitVal x, r)] else []) ++
      [(3, x :: r)]
  | a :: b :: r =>
    (if ('1' ≤ a ∧ a ≤ '2') ∧ b.isDigit then [(10 * digitVal a + digitVal b, r)] else []) ++
      (if a = '0' ∧ '1' ≤ b ∧ b ≤ '9' then [(digitVal b, r)] else []) ++
      (if '1' ≤ a ∧ a ≤ '9' then [(digitVal a, b :: r)] else [])
  | a :: r => if '1' ≤ a ∧ a ≤ '9' then [(digitVal a, r)] else []
  | [] => []

/-- Model of `datetime.strptime(arg, '%Y%m%d')` restricted to its date
result: `%Y` consumes exactly four digits, then `%m` and `%d` match
with regex backtracking (first full match of the whole string wins),
and finally the `date` constructor validates the calendar date,
raising `ValueError` — modelled as `none` — on e.g. a day out of
range for the month or year 0.  Checked against CPython: `"20250101"`
and also `"202511"` and `"2025011"` parse to 2025-01-01, while
`"20250230"` and `"0000101"` raise. -/
def strptimeYmd (s : String) : Option (Nat × Nat × Nat) :=
  match s.data with
  | a :: b :: c :: d :: rest =>
    if a.isDigit ∧ b.isDigit ∧ c.isDigit ∧ d.isDigit then
      let y := 1000 * digitVal a + 100 * digitVal b + 10 * digitVal c + digitVal d
      ((monthCandidates rest).findSome? (fun mc =>
        (dayCandidates mc.2).findSome? (fun dc =>
          if dc.2 = [] then some (mc.1, dc.1) else none))).bind
        (fun md =>
          if 1 ≤ y ∧ 1 ≤ md.2 ∧ md.2 ≤ daysInMonth y md.1 then some (y, md.1, md.2) else none)
    else none
  | _ => none

/-- Python whitespace stripped by `int(...)` and `str.strip()` (ASCII
range; `int` and `strip` also strip some Unicode spaces, which never
occur in this repository's inputs). -/
def isPySpace (c : Char) : Bool :=
  c = ' ' ∨ c = '\t' ∨ c = '\n' ∨ c = '\x0d' ∨ c = '\x0b' ∨ c = '\x0c'

/-- Model of `str.strip()`: drop leading and trailing whitespace. -/
def pyStrip (s : String) : String :=
  String.mk (((s.data.dropWhile isPySpace).reverse.dropWhile isPySpace).reverse)

/-- Digit run with single underscores between digits, as accepted by
Python's `int(...)` literal syntax (`"1_4"` is 14; leading, trailing
or doubled underscores are `ValueError`).  The first character must
already have been checked to be a digit. -/
def digitsUnderscore : Nat → List Char → Option Nat
  | acc, [] => some acc
  | acc, '_' :: c :: rest =>
    if c.isDigit then digitsUnderscore (10 * acc + digitVal c) rest else none
  | _, '_' :: [] => none
  | acc, c :: rest =>
    if c.isDigit then digitsUnderscore (10 * acc + digitVal c) rest else none

/-- Model of Python `int(arg)` on a string: optional surrounding
whitespace, optional sign, then a non-empty digit run (with
underscore separators).  `none` models `ValueError`. -/
def pyInt (s : String) : Option Int :=
  let cs := (pyStrip s).data
  let (negSign, cs1) := match cs with
    | '-' :: r => (true, r)
    | '+' :: r => (false, r)
    | _ => (false, cs)
  match cs1 with
  | c :: rest =>
    if c.isDigit then
      (digitsUnderscore (digitVal c) rest).map (fun n =>
        if negSign then -(n : Int) else (n : Int))
    else none
  | [] => none

/-- Days since 1970-01-01 of a Gregorian calendar date (Howard
Hinnant's `days_from_civil`), used to model `datetime` ± `timedelta`
day arithmetic. -/
def daysFromCivil (y : Int) (m d : Nat) : Int :=
  let y' : Int := if m ≤ 2 then y - 1 else y
  let era : Int := Int.fdiv y' 400
  let yoe : Int := y' - era * 400
  let mp : Nat := if 3 ≤ m then m - 3 else m + 9
  let doy : Nat := (153 * mp + 2) / 5 + d - 1
  let doe : Int := yoe * 365 + Int.fdiv yoe 4 - Int.fdiv yoe 100 + doy
  era * 146097 + doe - 719468

/-- Gregorian calendar date from days since 1970-01-01 (Howard
Hinnant's `civil_from_days`). -/
def civilFromDays (z : Int) : Int × Nat × Nat :=
  let z' : Int := z + 719468
  let era : Int := Int.fdiv z' 146097
  let doe : Nat := (z' - era * 146097).toNat
  let yoe : Nat := (doe - doe / 1460 + doe / 36524 - doe / 146096) / 365
  let doy : Nat := doe - (365 * yoe + yoe / 4 - yoe / 100)
  let mp : Nat := (5 * doy + 2) / 153
  let d : Nat := doy - (153 * mp + 2) / 5 + 1
  let m : Nat := if mp < 10 then mp + 3 else mp - 9
  (era * 400 + yoe + (if m ≤ 2 then 1 else 0), m, d)

/-- Model of `now - timedelta(days=n)`: `timedelta` raises
`OverflowError` when `|days| > 999999999`, and the datetime
subtraction raises `OverflowError` when the result's year leaves
`[1, 9999]`; both errors are modelled as `none` (the caller
`parse_date_arg` catches them).  The time-of-day components are
unchanged. -/
def now_minus_days (now : DateTime) (n : Int) : Option DateTime :=
  if 999999999 < n.natAbs then none
  else
    let res := civilFromDays (daysFromCivil now.year now.month now.day - n)
    if 1 ≤ res.1 ∧ res.1 ≤ 9999 then
      some ⟨res.1.toNat, res.2.1, res.2.2, now.hour, now.minute, now.second, now.microsecond⟩
    else none

/-- Embedding of `parse_date_arg` (generate_timesheet.py lines
194-209): first try `datetime.strptime(arg, '%Y%m%d')` (a success is
midnight of the parsed date), on `ValueError` try
`datetime.now() - timedelta(days=int(arg))` (catching `ValueError`
and `OverflowError`), otherwise `None`.  `now` stands for
`datetime.now()`. -/
def parse_date_arg (now : DateTime) (arg : String) : Option DateTime :=
  match strptimeYmd arg with
  | some ymd => some ⟨ymd.1, ymd.2.1, ymd.2.2, 0, 0, 0, 0⟩
  | none =>
    match pyInt arg with
    | some n => now_minus_days now n
    | none => none

/-- Embedding of the cutoff resolution in `main` /
`generate_timesheet` (generate_timesheet.py lines 287-296): the
default cutoff is `datetime.now() - timedelta(days=7)`; a present and
truthy (non-empty) argument replaces it via `parse_date_arg`, and a
`None` result is surfaced as a user-facing error (stderr message and
`sys.exit(1)` in the script, `ValueError` in the library variant),
modelled as `Except.error`. -/
def resolve_since_date (now : DateTime) (arg : Option String) : Except String DateTime :=
  match arg with
  | none => (now_minus_days now 7).elim (Except.error "OverflowError") Except.ok
  | some a =>
    if a = "" then (now_minus_days now 7).elim (Except.error "OverflowError") Except.ok
    else
      match parse_date_arg now a with
      | some d => Except.ok d
      | none => Except.error "Invalid argument"

/-- Model of the Python values that `json.loads` can produce. -/
inductive PyValue where
  | null : PyValue
  | bool : Bool → PyValue
  | num : Int → PyValue
  | str : String → PyValue
  | list : List PyValue → PyValue
  | dict : List (String × PyValue) → PyValue

/-- Python truthiness of a `PyValue` (`None`, `False`, `0`, `""`,
`[]`, `{}` are falsy). -/
def pyTruthy : PyValue → Bool
  | .null => false
  | .bool b => b
  | .num n => n != 0
  | .str s => s != ""
  | .list l => !l.isEmpty
  | .dict d => !d.isEmpty

/-- Model of `data.get(key)` on a parsed JSON object: the value, or
`None` when the key is absent. -/
def dictGet : List (String × PyValue) → String → PyValue
  | [], _ => .null
  | (k', v) :: rest, k => if k = k' then v else dictGet rest k

/-- A row of the `messages` table as inserted by `parse_jsonl_file`:
`(timestamp, session_id, project_name, message_type, uuid)`.  The
first two components are the raw `PyValue`s pulled out of the JSON
object (Python inserts them as-is). -/
structure InsertedRow where
  timestamp : PyValue
  session_id : PyValue
  project_name : String
  message_type : PyValue
  uuid : PyValue

/-- What `parse_jsonl_file`'s loop does with one line, given the
outcome of `json.loads(line.strip())`:

* `loads` fails (`json.JSONDecodeError`) — caught by the inner
  `except`, a warning is printed, and the loop continues;
* `loads` yields a JSON object — the row is inserted exactly when
  `data.get('timestamp')` and `data.get('sessionId')` are both
  truthy, else the line is silently skipped;
* `loads` yields a non-object value — `data.get` raises
  `AttributeError`, which the inner `except json.JSONDecodeError`
  does NOT catch; it propagates to the function-level
  `except Exception`, which prints an error and returns the count so
  far, abandoning the remaining lines. -/
inductive LineOutcome where
  | skip : LineOutcome
  | insert : InsertedRow → LineOutcome
  | abort : LineOutcome

/-- Classify one line (see `LineOutcome`).  `loads` is the model of
`json.loads`, passed as a parameter since the JSON grammar itself is
outside the logic under specification. -/
def classifyLine (loads : String → Option PyValue) (project_name : String)
    (line : String) : LineOutcome :=
  match loads (pyStrip line) with
  | none => .skip
  | some (.dict d) =>
    if pyTruthy (dictGet d "timestamp") && pyTruthy (dictGet d "sessionId") then
      .insert ⟨dictGet d "timestamp", dictGet d "sessionId", project_name,
               dictGet d "type", dictGet d "uuid"⟩
    else .skip
  | some _ => .abort

/-- Embedding of the loop of `parse_jsonl_file`
(parse_claude_messages.py lines 53-88), threading the running `count`
exactly as the source does: the result is the list of rows passed to
`cursor.execute(INSERT ...)` and the returned count.  On the abort
path the source returns the current count from the
`except Exception` handler. -/
def parseJsonlLoop (loads : String → Option PyValue) (project_name : String) :
    List String → Nat → List InsertedRow × Nat
  | [], count => ([], count)
  | line :: rest, count =>
    match classifyLine loads project_name line with
    | .skip => parseJsonlLoop loads project_name rest count
    | .insert row =>
      let r := parseJsonlLoop loads project_name rest (count + 1)
      (row :: r.1, r.2)
    | .abort => ([], count)

/-- Embedding of `parse_jsonl_file`: process the file's lines with
`count = 0`, returning the inserted rows and the count. -/
def parse_jsonl_file (loads : String → Option PyValue) (project_name : String)
    (lines : List String) : List InsertedRow × Nat :=
  parseJsonlLoop loads project_name lines 0

/-- Does this line parse as JSON but yield a non-object value (the
abort case of `classifyLine`)? -/
def parsesNonObject (loads : String → Option PyValue) (line : String) : Bool :=
  match loads (pyStrip line) with
  | some (.dict _) => false
  | some _ => true
  | none => false

/-- The row a line would contribute: `some` exactly when the line
parses as a JSON object whose `timestamp` and `sessionId` members are
present and truthy. -/
def rowOfLine (loads : String → Option PyValue) (project_name : String)
    (line : String) : Option InsertedRow :=
  match classifyLine loads project_name line with
  | .insert row => some row
  | _ => none

/-- The activity map stores bucket set `bs` with `b ∈ bs` for project
`p` under day `d`. -/
def hasBlock (act : Activity) (d p : String) (b : DateTime) : Prop :=
  ∃ ps bs, alookup act d = some ps ∧ alookup ps p = some bs ∧ b ∈ bs

/-- Project `p` appears under day `d` of the activity map. -/
def hasProj (act : Activity) (d p : String) : Prop :=
  ∃ ps bs, alookup act d = some ps ∧ alookup ps p = some bs

/-- Well-formedness of an activity map as a model of nested Python
dicts: the day keys are distinct, and each day's project keys are
distinct. -/
def keysNodup (act : Activity) : Prop :=
  (akeys act).Nodup ∧ ∀ e ∈ act, (akeys e.2).Nodup

/-- The bucket set stored for project `p` under day `d`, with missing
entries read as the empty set (the total-function view of the nested
map; `hasBlock act d p b ↔ b ∈ blocksAt act d p`). -/
def blocksAt (act : Activity) (d p : String) : Finset DateTime :=
  (alookup ((alookup act d).getD []) p).getD ∅

/-- Every bucket set stored in the map is non-empty (true of every map
the bucketing pass builds: a key is only ever created together with an
insertion). -/
def valuesNonempty (act : Activity) : Prop :=
  ∀ e ∈ act, ∀ pb ∈ e.2, pb.2 ≠ ∅

/-- Example input (spec §8): one day where project A is active in
blocks 10:00 and 10:15 and project B in blocks 10:15 and 10:30. -/
def exampleMsgsAB : List Msg :=
  [⟨"2025-01-02T10:01:00", "s1", "A"⟩, ⟨"2025-01-02T10:16:00", "s1", "A"⟩,
   ⟨"2025-01-02T10:17:00", "s2", "B"⟩, ⟨"2025-01-02T10:31:00", "s2", "B"⟩]

/-- The union {10:00, 10:15, 10:30} of the example's bucket sets. -/
def exampleBlocksABC : Finset DateTime :=
  {⟨2025, 1, 2, 10, 0, 0, 0⟩, ⟨2025, 1, 2, 10, 15, 0, 0⟩, ⟨2025, 1, 2, 10, 30, 0, 0⟩}

/-- A well-formed JSONL line carrying both required fields. -/
def jsonGoodLine : String :=
  "\x7b\"timestamp\": \"2025-01-01T00:00:00Z\", \"sessionId\": \"abc\"\x7d"

/-- A `json.loads` model for the ingestion counterexample, agreeing
with real JSON on the two lines it is applied to: the line `"3"`
parses to the number 3 (a non-object), and `jsonGoodLine` parses to
an object with truthy `timestamp` and `sessionId`. -/
def loadsCex : String → Option PyValue := fun s =>
  if s = "3" then some (.num 3)
  else if s = jsonGoodLine then
    some (.dict [("timestamp", .str "2025-01-01T00:00:00Z"), ("sessionId", .str "abc")])
  else none

theorem alookup_upsert_self {α : Type} (l : List (String × α)) (k : String) (f : Option α → α) :
    alookup (upsert l k f) k = some (f (alookup l k)) := by
  induction l with
  | nil => simp [upsert, alookup]
  | cons hd tl ih =>
    obtain ⟨k', v⟩ := hd
    by_cases h : k = k'
    · simp [upsert, alookup, h]
    · simp [upsert, alookup, h, ih]

theorem alookup_upsert_ne {α : Type} (l : List (String × α)) (k k' : String) (f : Option α → α)
    (h : k' ≠ k) : alookup (upsert l k f) k' = alookup l k' := by
  induction l with
  | nil => simp [upsert, alookup, h]
  | cons hd tl ih =>
    obtain ⟨k₀, v⟩ := hd
    by_cases hk : k = k₀
    · subst hk
      simp [upsert, alookup, h]
    · by_cases hk' : k' = k₀ <;> simp [upsert, alookup, hk, hk', ih]

theorem upsert_eq_self {α : Type} (l : List (String × α)) (k : String) (f : Option α → α)
    (v : α) (hv : alookup l k = some v) (hf : f (some v) = v) : upsert l k f = l := by
  induction l with
  | nil => simp [alookup] at hv
  | cons hd tl ih =>
    obtain ⟨k₀, w⟩ := hd
    by_cases hk : k = k₀
    · simp only [alookup, if_pos hk] at hv
      obtain rfl : w = v := by injection hv
      simp [upsert, hk, hf]
    · simp only [alookup, if_neg hk] at hv
      simp [upsert, hk, ih hv]

theorem alookup_isSome_of_mem {α : Type} (l : List (String × α)) (k : String) (v : α)
    (h : (k, v) ∈ l) : (alookup l k).isSome := by
  induction l with
  | nil => simp at h
  | cons hd tl ih =>
    obtain ⟨k₀, w⟩ := hd
    rcases List.mem_cons.1 h with h1 | h1
    · obtain ⟨rfl, rfl⟩ := Prod.mk.injEq .. ▸ h1
      simp [alookup]
    · by_cases hk : k = k₀ <;> simp [alookup, hk, ih h1]

theorem alookup_mem {α : Type} (l : List (String × α)) (k : String) (v : α)
    (h : alookup l k = some v) : (k, v) ∈ l := by
  induction l with
  | nil => simp [alookup] at h
  | cons hd tl ih =>
    obtain ⟨k₀, w⟩ := hd
    by_cases hk : k = k₀
    · subst hk
      simp only [alookup, if_pos rfl] at h
      obtain rfl : w = v := by injection h
      exact List.mem_cons_self _ _
    · simp only [alookup, if_neg hk] at h
      exact List.mem_cons_of_mem _ (ih h)

theorem mem_alookup {α : Type} (l : List (String × α)) (k : String) (v : α)
    (hnd : (akeys l).Nodup) (h : (k, v) ∈ l) : alookup l k = some v := by
  induction l with
  | nil => simp at h
  | cons hd tl ih =>
    obtain ⟨k₀, w⟩ := hd
    simp only [akeys, List.map_cons, List.nodup_cons] at hnd
    rcases List.mem_cons.1 h with h1 | h1
    · obtain ⟨rfl, rfl⟩ := Prod.mk.injEq .. ▸ h1
      simp [alookup]
    · have hk : k ≠ k₀ := by
        rintro rfl
        exact hnd.1 (List.mem_map.2 ⟨(k, v), h1, rfl⟩)
      simp [alookup, hk, ih hnd.2 h1]

theorem alookup_eq_none_iff {α : Type} (l : List (String × α)) (k : String) :
    alookup l k = none ↔ k ∉ akeys l := by
  induction l with
  | nil => simp [alookup, akeys]
  | cons hd tl ih =>
    obtain ⟨k₀, w⟩ := hd
    by_cases hk : k = k₀
    · subst hk
      simp [alookup, akeys]
    · simp [alookup, akeys, hk, ih]

theorem upsert_akeys {α : Type} (l : List (String × α)) (k : String) (f : Option α → α) :
    akeys (upsert l k f) = if k ∈ akeys l then akeys l else akeys l ++ [k] := by
  induction l with
  | nil => simp [upsert, akeys]
  | cons hd tl ih =>
    obtain ⟨k₀, w⟩ := hd
    by_cases hk : k = k₀
    · subst hk
      simp [upsert, akeys]
    · simp only [upsert, if_neg hk, akeys, List.map_cons]
      simp only [akeys] at ih
      rw [ih]
      by_cases hmem : k ∈ List.map Prod.fst tl
      · simp [List.mem_cons, hk, hmem]
      · simp [List.mem_cons, hk, hmem]

theorem upsert_akeys_nodup {α : Type} (l : List (String × α)) (k : String) (f : Option α → α)
    (h : (akeys l).Nodup) : (akeys (upsert l k f)).Nodup := by
  rw [upsert_akeys]
  by_cases hmem : k ∈ akeys l
  · simp [hmem, h]
  · rw [if_neg hmem, List.nodup_append]
    refine ⟨h, List.nodup_singleton _, ?_⟩
    intro a ha hb
    simp only [List.mem_singleton] at hb
    subst hb
    exact hmem ha

theorem mem_upsert_cases {α : Type} (l : List (String × α)) (k : String) (f : Option α → α)
    (e : String × α) (h : e ∈ upsert l k f) : e ∈ l ∨ e = (k, f (alookup l k)) := by
  induction l with
  | nil =>
    simp [upsert] at h
    simp [alookup, h]
  | cons hd tl ih =>
    obtain ⟨k₀, w⟩ := hd
    by_cases hk : k = k₀
    · subst hk
      simp only [upsert, if_pos rfl] at h
      rcases List.mem_cons.1 h with h1 | h1
      · right
        simp [alookup, h1]
      · left
        exact List.mem_cons_of_mem _ h1
    · simp only [upsert, if_neg hk] at h
      rcases List.mem_cons.1 h with h1 | h1
      · left
        simp [h1]
      · rcases ih h1 with h2 | h2
        · exact Or.inl (List.mem_cons_of_mem _ h2)
        · right
          simp [alookup, hk, h2]

theorem hasBlock_iff_mem_blocksAt (act : Activity) (d p : String) (b : DateTime) :
    hasBlock act d p b ↔ b ∈ blocksAt act d p := by
  unfold hasBlock blocksAt
  cases h1 : alookup act d with
  | none => simp [h1, alookup]
  | some ps =>
    cases h2 : alookup ps p with
    | none => simp [h1, h2]
    | some bs => simp [h1, h2]

theorem blocksAt_bucketStep (acc : Activity) (m : Msg) (d p : String) :
    blocksAt (bucketStep acc m) d p =
      match parseMsgTime m with
      | none => blocksAt acc d p
      | some dt =>
        if d = dayKey dt ∧ p = clean_project_name m.project_name then
          insert (round_to_15min dt) (blocksAt acc d p)
        else blocksAt acc d p := by
  cases hp : parseMsgTime m with
  | none => simp [bucketStep, hp]
  | some dt =>
    simp only [bucketStep, hp]
    by_cases hd : d = dayKey dt
    · subst hd
      by_cases hpp : p = clean_project_name m.project_name
      · subst hpp
        rw [if_pos ⟨rfl, rfl⟩]
        unfold blocksAt
        rw [alookup_upsert_self, Option.getD_some, alookup_upsert_self, Option.getD_some]
      · rw [if_neg (fun h => hpp h.2)]
        unfold blocksAt
        rw [alookup_upsert_self, Option.getD_some, alookup_upsert_ne _ _ _ _ hpp]
    · rw [if_neg (fun h => hd h.1)]
      unfold blocksAt
      rw [alookup_upsert_ne _ _ _ _ hd]

theorem mem_blocksAt_bucketPassAux (msgs : List Msg) (acc : Activity) (d p : String)
    (b : DateTime) :
    b ∈ blocksAt (List.foldl bucketStep acc msgs) d p ↔
      b ∈ blocksAt acc d p ∨
        ∃ m ∈ msgs, ∃ dt, parseMsgTime m = some dt ∧ dayKey dt = d ∧
          clean_project_name m.project_name = p ∧ round_to_15min dt = b := by
  induction msgs generalizing acc with
  | nil => simp
  | cons m ms ih =>
    rw [List.foldl_cons, ih, blocksAt_bucketStep]
    cases hp : parseMsgTime m with
    | none =>
      simp only [hp]
      constructor
      · rintro (h | ⟨m', hm', rest⟩)
        · exact Or.inl h
        · exact Or.inr ⟨m', List.mem_cons_of_mem _ hm', rest⟩
      · rintro (h | ⟨m', hm', dt, hdt, rest⟩)
        · exact Or.inl h
        · rcases List.mem_cons.1 hm' with rfl | hm''
          · rw [hp] at hdt
            cases hdt
          · exact Or.inr ⟨m', hm'', dt, hdt, rest⟩
    | some dt =>
      simp only [hp]
      by_cases hcond : d = dayKey dt ∧ p = clean_project_name m.project_name
      · rw [if_pos hcond]
        obtain ⟨hd, hpp⟩ := hcond
        constructor
        · rintro (hmem | h)
          · rcases Finset.mem_insert.1 hmem with rfl | hb
            · exact Or.inr ⟨m, List.mem_cons_self _ _, dt, hp, hd.symm, hpp.symm, rfl⟩
            · exact Or.inl hb
          · rcases h with ⟨m', hm', dt', h1, h2, h3, h4⟩
            exact Or.inr ⟨m', List.mem_cons_of_mem _ hm', dt', h1, h2, h3, h4⟩
        · rintro (hb | ⟨m', hm', dt', h1, h2, h3, h4⟩)
          · exact Or.inl (Finset.mem_insert_of_mem hb)
          · rcases List.mem_cons.1 hm' with rfl | hm''
            · rw [hp] at h1
              injection h1 with h1
              subst h1
              refine Or.inl ?_
              rw [← h4]
              exact Finset.mem_insert_self _ _
            · exact Or.inr ⟨m', hm'', dt', h1, h2, h3, h4⟩
      · rw [if_neg hcond]
        constructor
        · rintro (hb | ⟨m', hm', dt', h1, h2, h3, h4⟩)
          · exact Or.inl hb
          · exact Or.inr ⟨m', List.mem_cons_of_mem _ hm', dt', h1, h2, h3, h4⟩
        · rintro (hb | ⟨m', hm', dt', h1, h2, h3, h4⟩)
          · exact Or.inl hb
          · rcases List.mem_cons.1 hm' with rfl | hm''
            · rw [hp] at h1
              injection h1 with h1
              subst h1
              exact absurd ⟨h2.symm, h3.symm⟩ hcond
            · exact Or.inr ⟨m', hm'', dt', h1, h2, h3, h4⟩

theorem mem_blocksAt_bucketPass (msgs : List Msg) (d p : String) (b : DateTime) :
    b ∈ blocksAt (bucketPass msgs) d p ↔
      ∃ m ∈ msgs, ∃ dt, parseMsgTime m = some dt ∧ dayKey dt = d ∧
        clean_project_name m.project_name = p ∧ round_to_15min dt = b := by
  have h := mem_blocksAt_bucketPassAux msgs [] d p b
  simpa [bucketPass, blocksAt, alookup] using h

theorem hasProj_iff_isSome (act : Activity) (d p : String) :
    hasProj act d p ↔ (alookup ((alookup act d).getD []) p).isSome = true := by
  unfold hasProj
  cases h1 : alookup act d with
  | none => simp [h1, alookup]
  | some ps =>
    cases h2 : alookup ps p with
    | none => simp [h1, h2]
    | some bs => simp [h1, h2]

theorem hasProj_bucketStep (acc : Activity) (m : Msg) (d p : String) :
    hasProj (bucketStep acc m) d p ↔
      hasProj acc d p ∨
        ∃ dt, parseMsgTime m = some dt ∧ dayKey dt = d ∧
          clean_project_name m.project_name = p := by
  rw [hasProj_iff_isSome (bucketStep acc m) d p, hasProj_iff_isSome acc d p]
  cases hp : parseMsgTime m with
  | none => simp [bucketStep, hp]
  | some dt =>
    simp only [bucketStep, hp]
    by_cases hd : d = dayKey dt
    · subst hd
      by_cases hpp : p = clean_project_name m.project_name
      · subst hpp
        rw [alookup_upsert_self, Option.getD_some, alookup_upsert_self]
        exact Iff.intro (fun _ => Or.inr ⟨dt, rfl, rfl, rfl⟩) (fun _ => rfl)
      · rw [alookup_upsert_self, Option.getD_some, alookup_upsert_ne _ _ _ _ hpp]
        constructor
        · exact fun h => Or.inl h
        · rintro (h | ⟨dt', h1, h2, h3⟩)
          · exact h
          · injection h1 with h1
            subst h1
            exact absurd h3.symm hpp
    · rw [alookup_upsert_ne _ _ _ _ hd]
      constructor
      · exact fun h => Or.inl h
      · rintro (h | ⟨dt', h1, h2, h3⟩)
        · exact h
        · injection h1 with h1
          subst h1
          exact absurd h2.symm hd

theorem hasProj_bucketPassAux (msgs : List Msg) (acc : Activity) (d p : String) :
    hasProj (List.foldl bucketStep acc msgs) d p ↔
      hasProj acc d p ∨
        ∃ m ∈ msgs, ∃ dt, parseMsgTime m = some dt ∧ dayKey dt = d ∧
          clean_project_name m.project_name = p := by
  induction msgs generalizing acc with
  | nil => simp
  | cons m ms ih =>
    rw [List.foldl_cons, ih, hasProj_bucketStep]
    constructor
    · rintro ((h | ⟨dt, h1, h2, h3⟩) | h)
      · exact Or.inl h
      · exact Or.inr ⟨m, List.mem_cons_self _ _, dt, h1, h2, h3⟩
      · rcases h with ⟨m', hm', dt', h1, h2, h3⟩
        exact Or.inr ⟨m', List.mem_cons_of_mem _ hm', dt', h1, h2, h3⟩
    · rintro (h | ⟨m', hm', dt', h1, h2, h3⟩)
      · exact Or.inl (Or.inl h)
      · rcases List.mem_cons.1 hm' with rfl | hm''
        · exact Or.inl (Or.inr ⟨dt', h1, h2, h3⟩)
        · exact Or.inr ⟨m', hm'', dt', h1, h2, h3⟩

theorem hasProj_bucketPass (msgs : List Msg) (d p : String) :
    hasProj (bucketPass msgs) d p ↔
      ∃ m ∈ msgs, ∃ dt, parseMsgTime m = some dt ∧ dayKey dt = d ∧
        clean_project_name m.project_name = p := by
  have h := hasProj_bucketPassAux msgs [] d p
  simpa [bucketPass, hasProj, alookup] using h

theorem bucketStep_keysNodup (acc : Activity) (m : Msg) (h : keysNodup acc) :
    keysNodup (bucketStep acc m) := by
  cases hp : parseMsgTime m with
  | none => simpa [bucketStep, hp] using h
  | some dt =>
    simp only [bucketStep, hp]
    obtain ⟨houter, hinner⟩ := h
    constructor
    · exact upsert_akeys_nodup _ _ _ houter
    · intro e he
      rcases mem_upsert_cases _ _ _ _ he with h1 | h1
      · exact hinner e h1
      · subst h1
        cases hacc : alookup acc (dayKey dt) with
        | none =>
          refine upsert_akeys_nodup _ _ _ ?_
          simp [akeys]
        | some ps =>
          exact upsert_akeys_nodup _ _ _ (hinner (dayKey dt, ps) (alookup_mem _ _ _ hacc))

theorem bucketPass_keysNodup (msgs : List Msg) : keysNodup (bucketPass msgs) := by
  unfold bucketPass
  suffices h : ∀ acc, keysNodup acc → keysNodup (List.foldl bucketStep acc msgs) by
    refine h [] ?_
    constructor
    · simp [akeys]
    · intro e he
      simp at he
  induction msgs with
  | nil => exact fun acc h => h
  | cons m ms ih => exact fun acc h => ih _ (bucketStep_keysNodup _ _ h)

theorem bucketStep_valuesNonempty (acc : Activity) (m : Msg) (h : valuesNonempty acc) :
    valuesNonempty (bucketStep acc m) := by
  cases hp : parseMsgTime m with
  | none => simpa [bucketStep, hp] using h
  | some dt =>
    simp only [bucketStep, hp]
    intro e he pb hpb
    rcases mem_upsert_cases _ _ _ _ he with h1 | h1
    · exact h e h1 pb hpb
    · subst h1
      rcases mem_upsert_cases _ _ _ _ hpb with h2 | h2
      · cases hacc : alookup acc (dayKey dt) with
        | none =>
          rw [hacc] at h2
          simp at h2
        | some ps =>
          rw [hacc] at h2
          exact h (dayKey dt, ps) (alookup_mem _ _ _ hacc) pb h2
      · rw [h2]
        exact Finset.insert_ne_empty _ _

theorem bucketPass_valuesNonempty (msgs : List Msg) : valuesNonempty (bucketPass msgs) := by
  unfold bucketPass
  suffices h : ∀ acc, valuesNonempty acc → valuesNonempty (List.foldl bucketStep acc msgs) by
    refine h [] ?_
    intro e he
    simp at he
  induction msgs with
  | nil => exact fun acc h => h
  | cons m ms ih => exact fun acc h => ih _ (bucketStep_valuesNonempty _ _ h)

theorem hasProj_iff_blocksAt_nonempty (act : Activity) (hv : valuesNonempty act)
    (d p : String) : hasProj act d p ↔ blocksAt act d p ≠ ∅ := by
  constructor
  · rintro ⟨ps, bs, h1, h2⟩
    have hbs : bs ≠ ∅ := hv (d, ps) (alookup_mem _ _ _ h1) (p, bs) (alookup_mem _ _ _ h2)
    unfold blocksAt
    rw [h1, Option.getD_some, h2, Option.getD_some]
    exact hbs
  · intro h
    unfold blocksAt at h
    cases h1 : alookup act d with
    | none =>
      rw [h1] at h
      simp [alookup] at h
    | some ps =>
      rw [h1, Option.getD_some] at h
      cases h2 : alookup ps p with
      | none =>
        rw [h2] at h
        simp at h
      | some bs => exact ⟨ps, bs, h1, h2⟩

theorem filterPass_cons_pos (d₀ : String) (ps₀ : List (String × Finset DateTime))
    (rest : Activity) (pf ef : Option String)
    (hk : ps₀.filter (fun pb => keepProject pf ef pb.1) = []) :
    filterPass ((d₀, ps₀) :: rest) pf ef = filterPass rest pf ef := by
  simp [filterPass, hk]

theorem filterPass_cons_neg (d₀ : String) (ps₀ : List (String × Finset DateTime))
    (rest : Activity) (pf ef : Option String)
    (hk : ps₀.filter (fun pb => keepProject pf ef pb.1) ≠ []) :
    filterPass ((d₀, ps₀) :: rest) pf ef =
      (d₀, ps₀.filter (fun pb => keepProject pf ef pb.1)) :: filterPass rest pf ef := by
  simp [filterPass, hk]

theorem mem_filterPass (act : Activity) (pf ef : Option String) (d : String)
    (ps : List (String × Finset DateTime)) :
    (d, ps) ∈ filterPass act pf ef ↔
      ∃ ps₀, (d, ps₀) ∈ act ∧
        ps = ps₀.filter (fun pb => keepProject pf ef pb.1) ∧ ps ≠ [] := by
  unfold filterPass
  rw [List.mem_filterMap]
  constructor
  · rintro ⟨e, he, hfe⟩
    obtain ⟨d₀, ps₀⟩ := e
    by_cases hk : ps₀.filter (fun pb => keepProject pf ef pb.1) = []
    · rw [if_pos hk] at hfe
      cases hfe
    · rw [if_neg hk] at hfe
      injection hfe with h1
      cases h1
      exact ⟨ps₀, he, rfl, hk⟩
  · rintro ⟨ps₀, hmem, rfl, hne⟩
    refine ⟨(d, ps₀), hmem, ?_⟩
    rw [if_neg hne]

theorem filterPass_akeys_sublist (act : Activity) (pf ef : Option String) :
    (akeys (filterPass act pf ef)).Sublist (akeys act) := by
  induction act with
  | nil => simp [filterPass, akeys]
  | cons e rest ih =>
    obtain ⟨d₀, ps₀⟩ := e
    by_cases hk : ps₀.filter (fun pb => keepProject pf ef pb.1) = []
    · rw [filterPass_cons_pos _ _ _ _ _ hk]
      exact ih.cons _
    · rw [filterPass_cons_neg _ _ _ _ _ hk]
      simp only [akeys, List.map_cons]
      exact ih.cons₂ _

theorem filterPass_keysNodup (act : Activity) (pf ef : Option String) (h : keysNodup act) :
    keysNodup (filterPass act pf ef) := by
  obtain ⟨h1, h2⟩ := h
  constructor
  · exact (filterPass_akeys_sublist act pf ef).nodup h1
  · intro e he
    obtain ⟨d, ps⟩ := e
    rcases (mem_filterPass act pf ef d ps).1 he with ⟨ps₀, hmem, rfl, _⟩
    exact ((List.filter_sublist _).map Prod.fst).nodup (h2 (d, ps₀) hmem)

theorem filterPass_alookup (act : Activity) (pf ef : Option String) :
    (akeys act).Nodup → ∀ d,
    alookup (filterPass act pf ef) d =
      (alookup act d).bind (fun ps =>
        if ps.filter (fun pb => keepProject pf ef pb.1) = [] then none
        else some (ps.filter (fun pb => keepProject pf ef pb.1))) := by
  induction act with
  | nil =>
    intro _ d
    simp [filterPass, alookup]
  | cons e rest ih =>
    intro hnd d
    obtain ⟨d₀, ps₀⟩ := e
    simp only [akeys, List.map_cons, List.nodup_cons] at hnd
    by_cases hd : d = d₀
    · subst hd
      by_cases hk : ps₀.filter (fun pb => keepProject pf ef pb.1) = []
      · rw [filterPass_cons_pos _ _ _ _ _ hk]
        have hnone : alookup (filterPass rest pf ef) d = none := by
          rw [alookup_eq_none_iff]
          intro hmem
          exact hnd.1 ((filterPass_akeys_sublist rest pf ef).subset hmem)
        rw [hnone]
        simp [alookup, hk]
      · rw [filterPass_cons_neg _ _ _ _ _ hk]
        simp [alookup, hk]
    · by_cases hk : ps₀.filter (fun pb => keepProject pf ef pb.1) = []
      · rw [filterPass_cons_pos _ _ _ _ _ hk]
        rw [ih hnd.2 d]
        simp [alookup, hd]
      · rw [filterPass_cons_neg _ _ _ _ _ hk]
        simp only [alookup, if_neg hd]
        exact ih hnd.2 d

theorem alookup_filter_key {α : Type} (q : String → Bool) (ps : List (String × α)) (p : String) :
    alookup (ps.filter (fun pb => q pb.1)) p = if q p then alookup ps p else none := by
  induction ps with
  | nil => simp [alookup]
  | cons pb rest ih =>
    obtain ⟨k, v⟩ := pb
    by_cases hp : p = k
    · subst hp
      by_cases hq : q p
      · simp [List.filter_cons, hq, alookup]
      · simp [List.filter_cons, hq, alookup, ih]
    · by_cases hq : q k
      · simp [List.filter_cons, hq, alookup, hp, ih]
      · simp [List.filter_cons, hq, alookup, hp, ih]

theorem hasBlock_filterPass (act : Activity) (hnd : (akeys act).Nodup)
    (pf ef : Option String) (d p : String) (b : DateTime) :
    hasBlock (filterPass act pf ef) d p b ↔
      keepProject pf ef p = true ∧ hasBlock act d p b := by
  rw [hasBlock_iff_mem_blocksAt, hasBlock_iff_mem_blocksAt]
  unfold blocksAt
  rw [filterPass_alookup act pf ef hnd d]
  cases h1 : alookup act d with
  | none => simp [alookup]
  | some ps =>
    simp only [Option.some_bind]
    by_cases hk : ps.filter (fun pb => keepProject pf ef pb.1) = []
    · rw [if_pos hk]
      constructor
      · intro h
        simp [alookup] at h
      · rintro ⟨hkeep, hb⟩
        simp only [Option.getD_some] at hb
        exfalso
        cases h2 : alookup ps p with
        | none =>
          rw [h2] at hb
          simp at hb
        | some bs =>
          have hmem : (p, bs) ∈ ps.filter (fun pb => keepProject pf ef pb.1) :=
            List.mem_filter.2 ⟨alookup_mem _ _ _ h2, hkeep⟩
          rw [hk] at hmem
          simp at hmem
    · rw [if_neg hk]
      simp only [Option.getD_some]
      rw [alookup_filter_key]
      by_cases hkeep : keepProject pf ef p
      · simp [hkeep]
      · simp [hkeep, alookup]

theorem hasProj_filterPass (act : Activity) (hnd : (akeys act).Nodup)
    (pf ef : Option String) (d p : String) :
    hasProj (filterPass act pf ef) d p ↔
      keepProject pf ef p = true ∧ hasProj act d p := by
  rw [hasProj_iff_isSome, hasProj_iff_isSome]
  rw [filterPass_alookup act pf ef hnd d]
  cases h1 : alookup act d with
  | none => simp [alookup]
  | some ps =>
    simp only [Option.some_bind]
    by_cases hk : ps.filter (fun pb => keepProject pf ef pb.1) = []
    · rw [if_pos hk]
      constructor
      · intro h
        simp [alookup] at h
      · rintro ⟨hkeep, hsome⟩
        simp only [Option.getD_some] at hsome
        exfalso
        cases h2 : alookup ps p with
        | none =>
          rw [h2] at hsome
          simp at hsome
        | some bs =>
          have hmem : (p, bs) ∈ ps.filter (fun pb => keepProject pf ef pb.1) :=
            List.mem_filter.2 ⟨alookup_mem _ _ _ h2, hkeep⟩
          rw [hk] at hmem
          simp at hmem
    · rw [if_neg hk]
      simp only [Option.getD_some]
      rw [alookup_filter_key]
      by_cases hkeep : keepProject pf ef p
      · simp [hkeep]
      · simp [hkeep, alookup]

theorem alookup_map_mergeDay (act : Activity) (d : String) :
    alookup (act.map mergeDay) d =
      (alookup act d).map (fun ps => [(combinedName ps, unionBlocks ps)]) := by
  induction act with
  | nil => simp [alookup]
  | cons e rest ih =>
    obtain ⟨d₀, ps₀⟩ := e
    by_cases hd : d = d₀ <;> simp [alookup, mergeDay, hd, ih]

theorem mem_unionBlocksAux (ps : List (String × Finset DateTime)) (init : Finset DateTime)
    (b : DateTime) :
    b ∈ ps.foldl (fun acc pb => acc ∪ pb.2) init ↔ b ∈ init ∨ ∃ pb ∈ ps, b ∈ pb.2 := by
  induction ps generalizing init with
  | nil => simp
  | cons pb rest ih =>
    rw [List.foldl_cons, ih]
    simp only [Finset.mem_union, List.mem_cons]
    constructor
    · rintro ((h | h) | ⟨pb', h1, h2⟩)
      · exact Or.inl h
      · exact Or.inr ⟨pb, Or.inl rfl, h⟩
      · exact Or.inr ⟨pb', Or.inr h1, h2⟩
    · rintro (h | ⟨pb', h1 | h1, h2⟩)
      · exact Or.inl (Or.inl h)
      · subst h1
        exact Or.inl (Or.inr h2)
      · exact Or.inr ⟨pb', h1, h2⟩

theorem mem_unionBlocks (ps : List (String × Finset DateTime)) (b : DateTime) :
    b ∈ unionBlocks ps ↔ ∃ pb ∈ ps, b ∈ pb.2 := by
  unfold unionBlocks
  rw [mem_unionBlocksAux]
  simp

theorem keepProject_iff (pf ef : Option String) (p : String) :
    keepProject pf ef p = true ↔
      ((∀ pat, pf = some pat → pat ≠ "" → fnmatch (pyLower p) (pyLower pat) = true) ∧
        (∀ pat, ef = some pat → pat ≠ "" → fnmatch (pyLower p) (pyLower pat) = false)) := by
  rcases pf with _ | pp <;> rcases ef with _ | pe
  · simp [keepProject]
  · by_cases he : pe = "" <;> simp [keepProject, he]
  · by_cases hp : pp = "" <;> simp [keepProject, hp]
  · by_cases hp : pp = "" <;> by_cases he : pe = "" <;> simp [keepProject, hp, he]

/-- Claim C8: `round_to_15min` truncates to the preceding 15-minute
boundary — the minute is floored to a multiple of 15 (hence in
{0, 15, 30, 45} whenever the minute is a valid minute value < 60),
seconds and microseconds are zeroed, all larger components are
unchanged — and the truncation is idempotent. -/
theorem round_to_15min_spec (dt : DateTime) :
    (round_to_15min dt).year = dt.year ∧
    (round_to_15min dt).month = dt.month ∧
    (round_to_15min dt).day = dt.day ∧
    (round_to_15min dt).hour = dt.hour ∧
    (round_to_15min dt).second = 0 ∧
    (round_to_15min dt).microsecond = 0 ∧
    (round_to_15min dt).minute % 15 = 0 ∧
    (round_to_15min dt).minute ≤ dt.minute ∧
    dt.minute - (round_to_15min dt).minute < 15 ∧
    (dt.minute < 60 →
      (round_to_15min dt).minute = 0 ∨ (round_to_15min dt).minute = 15 ∨
        (round_to_15min dt).minute = 30 ∨ (round_to_15min dt).minute = 45) ∧
    round_to_15min (round_to_15min dt) = round_to_15min dt := by
  refine ⟨rfl, rfl, rfl, rfl, rfl, rfl, ?_, ?_, ?_, ?_, ?_⟩
  · show dt.minute / 15 * 15 % 15 = 0
    omega
  · show dt.minute / 15 * 15 ≤ dt.minute
    omega
  · show dt.minute - dt.minute / 15 * 15 < 15
    omega
  · intro h
    show dt.minute / 15 * 15 = 0 ∨ dt.minute / 15 * 15 = 15 ∨
      dt.minute / 15 * 15 = 30 ∨ dt.minute / 15 * 15 = 45
    omega
  · have hm : dt.minute / 15 * 15 / 15 * 15 = dt.minute / 15 * 15 := by omega
    simp [round_to_15min, hm]

/-- Witness for C8 at a concrete datetime (10:47:13.000500 rounds to a
minute in {0, 15, 30, 45}, namely 45). -/
theorem round_to_15min_spec_witness :
    (round_to_15min ⟨2025, 1, 2, 10, 47, 13, 500⟩).minute = 0 ∨
    (round_to_15min ⟨2025, 1, 2, 10, 47, 13, 500⟩).minute = 15 ∨
    (round_to_15min ⟨2025, 1, 2, 10, 47, 13, 500⟩).minute = 30 ∨
    (round_to_15min ⟨2025, 1, 2, 10, 47, 13, 500⟩).minute = 45 := by
  obtain ⟨_, _, _, _, _, _, _, _, _, h10, _⟩ := round_to_15min_spec ⟨2025, 1, 2, 10, 47, 13, 500⟩
  exact h10 (by decide)

/-- Claim C9: `calculate_hours` returns exactly `card × 0.25`
(`= card / 4`) for a bucket set of any size — the arithmetic, modelled
in `ℚ`, is exact. -/
theorem calculate_hours_exact (s : Finset DateTime) :
    calculate_hours s = (s.card : ℚ) * 0.25 ∧
    calculate_hours s = (s.card : ℚ) / 4 ∧
    4 * calculate_hours s = (s.card : ℚ) := by
  refine ⟨rfl, ?_, ?_⟩
  · unfold calculate_hours
    rw [show (0.25 : ℚ) = 1 / 4 by norm_num]
    ring
  · unfold calculate_hours
    rw [show (0.25 : ℚ) = 1 / 4 by norm_num]
    ring

/-- Claim C1 (code bug): evaluating `clean_project_name` at the spec's
two example identifiers.  Because the leading `'-'` is stripped
BEFORE the `'-Users-pdenya-Code-'` / `'-Users-pdenya-'` replacements,
those patterns (which start with `'-'`) can no longer match at the
front of the name, so the code returns
`"Users/pdenya/Code/myproj/api"` and `"Users/pdenya/notes"` rather
than the intended `"myproj/api"` and `"~/notes"`. -/
theorem clean_project_name_spec_examples :
    clean_project_name "-Users-pdenya-Code-myproj-api" = "Users/pdenya/Code/myproj/api" ∧
    clean_project_name "-Users-pdenya-notes" = "Users/pdenya/notes" ∧
    clean_project_name "-Users-pdenya-Code-myproj-api" ≠ "myproj/api" ∧
    clean_project_name "-Users-pdenya-notes" ≠ "~/notes" :=
  ⟨rfl, rfl, by decide, by decide⟩

/-- Claim C6: a row whose timestamp fails to parse is skipped without
aborting the bucketing pass — `group_by_15min_chunks` on the full
message list equals `group_by_15min_chunks` on the sublist of rows
whose timestamps parse, for every filter/merge configuration. -/
theorem unparseable_rows_skipped (msgs : List Msg) (pf ef : Option String) (gt : Bool) :
    group_by_15min_chunks msgs pf ef gt =
      group_by_15min_chunks (msgs.filter (fun m => (parseMsgTime m).isSome)) pf ef gt := by
  have hbp : ∀ acc,
      List.foldl bucketStep acc (msgs.filter (fun m => (parseMsgTime m).isSome)) =
        List.foldl bucketStep acc msgs := by
    induction msgs with
    | nil => intro acc; rfl
    | cons m ms ih =>
      intro acc
      cases hp : parseMsgTime m with
      | none =>
        simp only [List.filter_cons, hp, Option.isSome_none, Bool.false_eq_true, if_false]
        rw [List.foldl_cons]
        have hstep : bucketStep acc m = acc := by simp [bucketStep, hp]
        rw [hstep]
        exact ih acc
      | some dt =>
        simp only [List.filter_cons, hp, Option.isSome_some, if_true]
        rw [List.foldl_cons, List.foldl_cons]
        exact ih _
  unfold group_by_15min_chunks bucketPass
  rw [hbp]

/-- Claim C5: a row that duplicates an existing row's day, project and
15-minute bucket leaves the activity map unchanged — set semantics
mean event count within a window never inflates hours. -/
theorem duplicate_row_no_double_count (msgs : List Msg) (pf ef : Option String) (gt : Bool)
    (r : Msg) (dt : DateTime) (hr : parseMsgTime r = some dt)
    (hdup : ∃ m ∈ msgs, ∃ dt', parseMsgTime m = some dt' ∧ dayKey dt' = dayKey dt ∧
      clean_project_name m.project_name = clean_project_name r.project_name ∧
      round_to_15min dt' = round_to_15min dt) :
    group_by_15min_chunks (msgs ++ [r]) pf ef gt = group_by_15min_chunks msgs pf ef gt := by
  have h1 : bucketPass (msgs ++ [r]) = bucketStep (bucketPass msgs) r := by
    unfold bucketPass
    rw [List.foldl_append]
    rfl
  have h2 : bucketStep (bucketPass msgs) r = bucketPass msgs := by
    have hasb : hasBlock (bucketPass msgs) (dayKey dt) (clean_project_name r.project_name)
        (round_to_15min dt) := by
      rw [hasBlock_iff_mem_blocksAt, mem_blocksAt_bucketPass]
      obtain ⟨m, hm, dt', ha, hb, hc, hd⟩ := hdup
      exact ⟨m, hm, dt', ha, hb, hc, hd⟩
    obtain ⟨ps, bs, hps, hbs, hmem⟩ := hasb
    simp only [bucketStep, hr]
    refine upsert_eq_self _ _ _ ps hps ?_
    simp only [Option.getD_some]
    refine upsert_eq_self _ _ _ bs hbs ?_
    simp only [Option.getD_some]
    exact Finset.insert_eq_self.2 hmem
  unfold group_by_15min_chunks
  rw [h1, h2]

/-- Witness for C5: appending an event at 10:05 that falls in the same
10:00 bucket, day and project as an existing 10:01 event changes
nothing. -/
theorem duplicate_row_no_double_count_witness :
    group_by_15min_chunks
        [⟨"2025-01-02T10:01:00", "s1", "A"⟩, ⟨"2025-01-02T10:05:00", "s2", "A"⟩]
        none none false =
      group_by_15min_chunks [⟨"2025-01-02T10:01:00", "s1", "A"⟩] none none false := by
  refine duplicate_row_no_double_count [⟨"2025-01-02T10:01:00", "s1", "A"⟩] none none false
    ⟨"2025-01-02T10:05:00", "s2", "A"⟩ ⟨2025, 1, 2, 10, 5, 0, 0⟩ (by decide) ?_
  exact ⟨⟨"2025-01-02T10:01:00", "s1", "A"⟩, by simp, ⟨2025, 1, 2, 10, 1, 0, 0⟩,
    by decide, by decide, by decide, by decide⟩

/-- Claim C2: a display name appears in the (non-merged) activity map
returned by `group_by_15min_chunks` iff some row buckets to it and it
passes the include filter (no pattern given — `None` or empty by
Python truthiness — or a case-insensitive full-name glob match) and
the exclude filter (no pattern given, or no match); a name matching
both patterns is excluded. -/
theorem group_filter_membership (msgs : List Msg) (pf ef : Option String) (p : String) :
    (∃ d, hasProj (group_by_15min_chunks msgs pf ef false) d p) ↔
      ((∃ m ∈ msgs, ∃ dt, parseMsgTime m = some dt ∧ clean_project_name m.project_name = p) ∧
        (∀ pat, pf = some pat → pat ≠ "" → fnmatch (pyLower p) (pyLower pat) = true) ∧
        (∀ pat, ef = some pat → pat ≠ "" → fnmatch (pyLower p) (pyLower pat) = false)) := by
  have hnd := (bucketPass_keysNodup msgs).1
  have hgroup : group_by_15min_chunks msgs pf ef false = filterPass (bucketPass msgs) pf ef := rfl
  constructor
  · rintro ⟨d, hd⟩
    rw [hgroup, hasProj_filterPass _ hnd] at hd
    obtain ⟨hkeep, hproj⟩ := hd
    rw [hasProj_bucketPass] at hproj
    obtain ⟨m, hm, dt, ha, _, hc⟩ := hproj
    exact ⟨⟨m, hm, dt, ha, hc⟩, (keepProject_iff pf ef p).1 hkeep⟩
  · rintro ⟨⟨m, hm, dt, ha, hc⟩, hinc, hexc⟩
    refine ⟨dayKey dt, ?_⟩
    rw [hgroup, hasProj_filterPass _ hnd]
    exact ⟨(keepProject_iff pf ef p).2 ⟨hinc, hexc⟩,
      (hasProj_bucketPass msgs (dayKey dt) p).2 ⟨m, hm, dt, ha, rfl, hc⟩⟩

/-- Witness for C2: `"acme/backend"` appears under include pattern
`"*acme*"` and exclude pattern `"*legacy*"`. -/
theorem group_filter_membership_witness :
    ∃ d, hasProj (group_by_15min_chunks [⟨"2025-01-02T10:01:00", "s1", "acme-backend"⟩]
      (some "*acme*") (some "*legacy*") false) d "acme/backend" := by
  refine (group_filter_membership _ _ _ _).mpr
    ⟨⟨⟨"2025-01-02T10:01:00", "s1", "acme-backend"⟩, by simp, ⟨2025, 1, 2, 10, 1, 0, 0⟩,
      by decide, by decide⟩, ?_, ?_⟩
  · intro pat hpat hne
    injection hpat with hpat
    subst hpat
    decide
  · intro pat hpat hne
    injection hpat with hpat
    subst hpat
    decide

/-- Claim C10 (implicit invariant): every bucket stored in the result
of `group_by_15min_chunks` under day key `d` has calendar date `d` —
the day key and the bucket come from the same row datetime, minute
truncation never changes the date, and merging only unions sets
within one day. -/
theorem bucket_day_invariant (msgs : List Msg) (pf ef : Option String) (gt : Bool)
    (d p : String) (ps : List (String × Finset DateTime)) (bs : Finset DateTime) (b : DateTime)
    (h1 : alookup (group_by_15min_chunks msgs pf ef gt) d = some ps)
    (h2 : alookup ps p = some bs) (h3 : b ∈ bs) : dayKey b = d := by
  have hnd := bucketPass_keysNodup msgs
  have key : ∀ p' b', hasBlock (filterPass (bucketPass msgs) pf ef) d p' b' → dayKey b' = d := by
    intro p' b' hb
    rw [hasBlock_filterPass _ hnd.1] at hb
    obtain ⟨_, hb⟩ := hb
    rw [hasBlock_iff_mem_blocksAt, mem_blocksAt_bucketPass] at hb
    obtain ⟨m, _, dt, _, hdk, _, hrd⟩ := hb
    have hsame : dayKey (round_to_15min dt) = dayKey dt := rfl
    rw [← hrd, hsame, hdk]
  cases gt with
  | false => exact key p b ⟨ps, bs, h1, h2, h3⟩
  | true =>
    have hmap : alookup ((filterPass (bucketPass msgs) pf ef).map mergeDay) d = some ps := h1
    rw [alookup_map_mergeDay] at hmap
    cases hf : alookup (filterPass (bucketPass msgs) pf ef) d with
    | none =>
      rw [hf] at hmap
      cases hmap
    | some ps₀ =>
      rw [hf] at hmap
      simp only [Option.map_some'] at hmap
      injection hmap with hmap
      subst hmap
      simp only [alookup] at h2
      by_cases hp : p = combinedName ps₀
      · rw [if_pos hp] at h2
        injection h2 with h2
        subst h2
        rw [mem_unionBlocks] at h3
        obtain ⟨pb, hpb, hbpb⟩ := h3
        have hfnd := filterPass_keysNodup (bucketPass msgs) pf ef hnd
        have hinner : (akeys ps₀).Nodup := hfnd.2 (d, ps₀) (alookup_mem _ _ _ hf)
        have halk : alookup ps₀ pb.1 = some pb.2 := mem_alookup _ _ _ hinner hpb
        exact key pb.1 b ⟨ps₀, pb.2, hf, halk, hbpb⟩
      · rw [if_neg hp] at h2
        simp [alookup] at h2

/-- Witness for C10: the 10:00 bucket of a concrete run is stored
under day `"2025-01-02"` and indeed has that calendar date. -/
theorem bucket_day_invariant_witness : dayKey ⟨2025, 1, 2, 10, 0, 0, 0⟩ = "2025-01-02" := by
  have hb : (⟨2025, 1, 2, 10, 0, 0, 0⟩ : DateTime) ∈
      blocksAt (group_by_15min_chunks [⟨"2025-01-02T10:01:00", "s1", "A"⟩] none none false)
        "2025-01-02" "A" := by decide
  rw [← hasBlock_iff_mem_blocksAt] at hb
  obtain ⟨ps, bs, h1, h2, h3⟩ := hb
  exact bucket_day_invariant [⟨"2025-01-02T10:01:00", "s1", "A"⟩] none none false
    "2025-01-02" "A" ps bs ⟨2025, 1, 2, 10, 0, 0, 0⟩ h1 h2 h3

/-- Claim C3: with merge mode on and a non-empty filtered map, each
day of the result holds exactly one entry, whose bucket set is the
union of the day's surviving projects' bucket sets and whose name is
`"Combined: "` followed by the surviving names sorted (Python's
code-point order) and joined with `", "`. -/
theorem group_merge_combines_days (msgs : List Msg) (pf ef : Option String)
    (_hne : filterPass (bucketPass msgs) pf ef ≠ []) (d : String)
    (ps : List (String × Finset DateTime))
    (h : alookup (group_by_15min_chunks msgs pf ef true) d = some ps) :
    ∃ ps₀, alookup (filterPass (bucketPass msgs) pf ef) d = some ps₀ ∧
      ps = [(combinedName ps₀, unionBlocks ps₀)] ∧
      ps.length = 1 ∧
      (∀ b, b ∈ unionBlocks ps₀ ↔ ∃ pb ∈ ps₀, b ∈ pb.2) ∧
      combinedName ps₀ =
        "Combined: " ++ String.intercalate ", " (List.insertionSort strLeProp (akeys ps₀)) ∧
      List.Sorted strLeProp (List.insertionSort strLeProp (akeys ps₀)) ∧
      (List.insertionSort strLeProp (akeys ps₀)).Perm (akeys ps₀) := by
  have hmap : alookup ((filterPass (bucketPass msgs) pf ef).map mergeDay) d = some ps := h
  rw [alookup_map_mergeDay] at hmap
  cases hf : alookup (filterPass (bucketPass msgs) pf ef) d with
  | none =>
    rw [hf] at hmap
    cases hmap
  | some ps₀ =>
    rw [hf] at hmap
    simp only [Option.map_some'] at hmap
    injection hmap with hmap
    refine ⟨ps₀, rfl, hmap.symm, ?_, ?_, rfl, ?_, ?_⟩
    · rw [← hmap]
      rfl
    · exact fun b => mem_unionBlocks ps₀ b
    · exact List.sorted_insertionSort strLeProp _
    · exact List.perm_insertionSort strLeProp _

/-- Witness for C3 at the spec's example: a day with A = {10:00, 10:15}
and B = {10:15, 10:30} merges to 3 buckets (0.75 hours) under the name
`"Combined: A, B"`. -/
theorem group_merge_combines_days_witness :
    ∃ ps₀, alookup (filterPass (bucketPass exampleMsgsAB) none none) "2025-01-02" = some ps₀ ∧
      combinedName ps₀ = "Combined: A, B" ∧
      (unionBlocks ps₀).card = 3 ∧
      calculate_hours (unionBlocks ps₀) = 3 / 4 := by
  have hs : (alookup (group_by_15min_chunks exampleMsgsAB none none true)
      "2025-01-02").isSome = true := by decide
  obtain ⟨ps, hg⟩ := Option.isSome_iff_exists.1 hs
  obtain ⟨ps₀, hf, _, _, _, _, _, _⟩ :=
    group_merge_combines_days exampleMsgsAB none none (by decide) "2025-01-02" ps hg
  have hname : (alookup (filterPass (bucketPass exampleMsgsAB) none none)
      "2025-01-02").map combinedName = some "Combined: A, B" := by decide
  rw [hf] at hname
  simp only [Option.map_some'] at hname
  injection hname with hname
  have hcard : (alookup (filterPass (bucketPass exampleMsgsAB) none none)
      "2025-01-02").map (fun l => (unionBlocks l).card) = some 3 := by decide
  rw [hf] at hcard
  simp only [Option.map_some'] at hcard
  injection hcard with hcard
  refine ⟨ps₀, hf, hname, hcard, ?_⟩
  unfold calculate_hours
  rw [hcard]
  norm_num

/-- Counterexample for C4: `"9999999999"` parses as a plain integer
(`int()` succeeds), yet `parse_date_arg` returns `None` — the
`timedelta(days=9999999999)` construction raises `OverflowError`
(caught by the source's `except (ValueError, OverflowError)`), so the
result is not `now - n days` as the claim states. -/
theorem parse_date_arg_overflow_counterexample :
    strptimeYmd "9999999999" = none ∧
    pyInt "9999999999" = some 9999999999 ∧
    parse_date_arg ⟨2025, 6, 15, 12, 30, 0, 0⟩ "9999999999" = none :=
  ⟨by decide, by decide, by decide⟩

/-- Claim C4 (amended): `parse_date_arg` first tries the `%Y%m%d`
parse — a success yields midnight of the parsed date (this accepts
every valid 8-digit `YYYYMMDD` date and also some 6–7 digit strings);
when that fails it returns `now - timedelta(days=n)` for an argument
that parses as a Python integer `n`, which is `None` when the day
arithmetic overflows; when neither form parses the result is `None`,
surfaced by the caller as a user-facing input error, not a crash; an
omitted (or empty) argument defaults the cutoff to 7 days before now. -/
theorem parse_date_arg_cascade (now : DateTime) (arg : String) :
    (∀ y m d, strptimeYmd arg = some (y, m, d) →
      parse_date_arg now arg = some ⟨y, m, d, 0, 0, 0, 0⟩) ∧
    (strptimeYmd arg = none → ∀ n, pyInt arg = some n →
      parse_date_arg now arg = now_minus_days now n) ∧
    (strptimeYmd arg = none → pyInt arg = none → parse_date_arg now arg = none) ∧
    (arg ≠ "" → parse_date_arg now arg = none →
      resolve_since_date now (some arg) = Except.error "Invalid argument") ∧
    (∀ s, now_minus_days now 7 = some s → resolve_since_date now none = Except.ok s) := by
  refine ⟨?_, ?_, ?_, ?_, ?_⟩
  · intro y m d h
    simp [parse_date_arg, h]
  · intro h n hn
    simp [parse_date_arg, h, hn]
  · intro h hn
    simp [parse_date_arg, h, hn]
  · intro hne hnone
    simp [resolve_since_date, hne, hnone]
  · intro s hs
    show (now_minus_days now 7).elim (Except.error "OverflowError") Except.ok = Except.ok s
    rw [hs]
    rfl

/-- Witness for C4: the spec's three examples (`"20250101"` → midnight
2025-01-01, `"14"` → now − 14 days, `"abc"` → rejected) and the
default cutoff, at `now =` 2025-06-15 12:30. -/
theorem parse_date_arg_cascade_witness :
    parse_date_arg ⟨2025, 6, 15, 12, 30, 0, 0⟩ "20250101" = some ⟨2025, 1, 1, 0, 0, 0, 0⟩ ∧
    parse_date_arg ⟨2025, 6, 15, 12, 30, 0, 0⟩ "14" = some ⟨2025, 6, 1, 12, 30, 0, 0⟩ ∧
    parse_date_arg ⟨2025, 6, 15, 12, 30, 0, 0⟩ "abc" = none ∧
    resolve_since_date ⟨2025, 6, 15, 12, 30, 0, 0⟩ none = Except.ok ⟨2025, 6, 8, 12, 30, 0, 0⟩ := by
  have h1 := (parse_date_arg_cascade ⟨2025, 6, 15, 12, 30, 0, 0⟩ "20250101").1 2025 1 1 (by decide)
  have h2 := (parse_date_arg_cascade ⟨2025, 6, 15, 12, 30, 0, 0⟩ "14").2.1 (by decide) 14 (by decide)
  have h3 := (parse_date_arg_cascade ⟨2025, 6, 15, 12, 30, 0, 0⟩ "abc").2.2.1 (by decide) (by decide)
  have h4 := (parse_date_arg_cascade ⟨2025, 6, 15, 12, 30, 0, 0⟩ "x").2.2.2.2
    ⟨2025, 6, 8, 12, 30, 0, 0⟩ (by decide)
  refine ⟨h1, ?_, h3, h4⟩
  rw [h2]
  decide

theorem classifyLine_abort_iff (loads : String → Option PyValue) (pname line : String) :
    parsesNonObject loads line = true ↔ classifyLine loads pname line = LineOutcome.abort := by
  unfold parsesNonObject classifyLine
  cases hl : loads (pyStrip line) with
  | none => simp
  | some v =>
    cases v with
    | dict d =>
      by_cases hins : pyTruthy (dictGet d "timestamp") && pyTruthy (dictGet d "sessionId")
      · simp [hins]
      · simp [hins]
    | null => simp
    | bool b => simp
    | num n => simp
    | str s => simp
    | list l => simp

theorem rowOfLine_eq (loads : String → Option PyValue) (pname line : String) :
    rowOfLine loads pname line =
      match classifyLine loads pname line with
      | LineOutcome.insert r => some r
      | _ => none := rfl

theorem parseJsonlLoop_spec (loads : String → Option PyValue) (pname : String) :
    ∀ (lines : List String) (count : Nat),
    (parseJsonlLoop loads pname lines count).2 =
      count + (parseJsonlLoop loads pname lines count).1.length ∧
    (parseJsonlLoop loads pname lines count).1 =
      (lines.takeWhile (fun l => !parsesNonObject loads l)).filterMap (rowOfLine loads pname) := by
  intro lines
  induction lines with
  | nil => intro count; simp [parseJsonlLoop]
  | cons line rest ih =>
    intro count
    cases hcl : classifyLine loads pname line with
    | skip =>
      have hno : parsesNonObject loads line = false := by
        cases hpn : parsesNonObject loads line
        · rfl
        · have := ((classifyLine_abort_iff loads pname line).1 hpn).symm.trans hcl
          cases this
      have hrow : rowOfLine loads pname line = none := by
        rw [rowOfLine_eq, hcl]
      simp only [parseJsonlLoop, hcl]
      refine ⟨(ih count).1, ?_⟩
      rw [(ih count).2]
      simp [List.takeWhile_cons, hno, List.filterMap_cons, hrow]
    | insert row =>
      have hno : parsesNonObject loads line = false := by
        cases hpn : parsesNonObject loads line
        · rfl
        · have := ((classifyLine_abort_iff loads pname line).1 hpn).symm.trans hcl
          cases this
      have hrow : rowOfLine loads pname line = some row := by
        rw [rowOfLine_eq, hcl]
      simp only [parseJsonlLoop, hcl]
      constructor
      · rw [(ih (count + 1)).1]
        simp only [List.length_cons]
        omega
      · rw [(ih (count + 1)).2]
        simp [List.takeWhile_cons, hno, List.filterMap_cons, hrow]
    | abort =>
      have hyes : parsesNonObject loads line = true :=
        (classifyLine_abort_iff loads pname line).2 hcl
      simp only [parseJsonlLoop, hcl]
      exact ⟨rfl, by simp [List.takeWhile_cons, hyes]⟩

/-- Counterexample for C7: with lines `["3", <well-formed object
line>]` (the first parses as the JSON number 3, a non-object, on which
`data.get` raises an uncaught `AttributeError`), the second line is a
JSON object with both required fields present and truthy, yet no row
at all is inserted and the returned count is 0 — the non-object line
aborts the remaining lines, contradicting the claim's iff. -/
theorem parse_jsonl_nonobject_aborts_counterexample :
    (rowOfLine loadsCex "proj" jsonGoodLine).isSome = true ∧
    parsesNonObject loadsCex "3" = true ∧
    parse_jsonl_file loadsCex "proj" ["3", jsonGoodLine] = ([], 0) :=
  ⟨rfl, rfl, rfl⟩

/-- Claim C7 (amended): `parse_jsonl_file` inserts a row for a line
iff the line parses as a JSON object with truthy `timestamp` and
`sessionId` AND no earlier line of the file parsed as a non-object
JSON value; a non-object JSON line raises an error that aborts the
remaining lines (returning the partial count), while a line that
fails to parse at all is reported and skipped without aborting; the
returned count always equals the number of rows inserted. -/
theorem parse_jsonl_rows_characterization (loads : String → Option PyValue) (pname : String)
    (lines : List String) :
    (parse_jsonl_file loads pname lines).2 = (parse_jsonl_file loads pname lines).1.length ∧
    (parse_jsonl_file loads pname lines).1 =
      (lines.takeWhile (fun l => !parsesNonObject loads l)).filterMap (rowOfLine loads pname) := by
  have h := parseJsonlLoop_spec loads pname lines 0
  unfold parse_jsonl_file
  refine ⟨?_, h.2⟩
  rw [h.1, Nat.zero_add]
